import Mathlib

/-!
Verification of the p2p-videocall signalling server (room registry,
join/offer/answer/candidate/leave protocol dispatch).

The embedding follows the current server entry point (the draft that keys
rooms by a stable user id and records a room creator) together with the
Room and User model classes it uses.  JavaScript Map objects are embedded
as association lists with JS Map semantics: set replaces in place or
appends, delete removes the entry, size is the number of entries.
-/

set_option maxRecDepth 4000

namespace P2P

/-- Model of the User class: stable client id, current socket id,
display name, bound room id, join timestamp. -/
structure User where
  id : String
  socketId : String
  name : String
  roomId : String
  joined : Nat
deriving Repr, DecidableEq

/-- Model of the Room class (creator variant): id, creator user id,
users keyed by user id, creation timestamp, maxUsers fixed to 2 by the
constructor. -/
structure Room where
  id : String
  creator : String
  users : List (String × User)
  created : Nat
  maxUsers : Nat
deriving Repr, DecidableEq

/-- Model of an entry of the ICE server configuration list. -/
structure IceServer where
  urls : String
  username : Option String
  credential : Option String
deriving Repr, DecidableEq

/-- JS Map.has on an association list. -/
def mapHas : List (String × α) → String → Bool
  | [], _ => false
  | p :: t, k => if p.1 = k then true else mapHas t k

/-- JS Map.get on an association list: the entry stored under the key. -/
def mapGet : List (String × α) → String → Option α
  | [], _ => none
  | p :: t, k => if p.1 = k then some p.2 else mapGet t k

/-- JS Map.set on an association list: replace the entry in place when
the key is present, append a new entry otherwise. -/
def mapSet : List (String × α) → String → α → List (String × α)
  | [], k, v => [(k, v)]
  | p :: t, k, v => if p.1 = k then (k, v) :: t else p :: mapSet t k v

/-- JS Map.delete on an association list. -/
def mapDelete (m : List (String × α)) (k : String) : List (String × α) :=
  m.filter (fun p => decide (p.1 ≠ k))

/-- JS Map.size on an association list. -/
def mapSize (m : List (String × α)) : Nat := m.length

/-- Room constructor: empty membership, maxUsers defaulted to 2. -/
def Room.new (id creator : String) (now : Nat) : Room :=
  ⟨id, creator, [], now, 2⟩

/-- Room.isCreator: the queried user id equals the creator id. -/
def Room.isCreator (r : Room) (userId : String) : Bool :=
  r.creator == userId

/-- Room.addUser: unconditional insertion keyed by the user id. -/
def Room.addUser (r : Room) (u : User) : Room :=
  { r with users := mapSet r.users u.id u }

/-- Room.removeUser: deletion keyed by the user id. -/
def Room.removeUser (r : Room) (userId : String) : Room :=
  { r with users := mapDelete r.users userId }

/-- Room.hasUser. -/
def Room.hasUser (r : Room) (userId : String) : Bool :=
  mapHas r.users userId

/-- Room.getUser. -/
def Room.getUser (r : Room) (userId : String) : Option User :=
  mapGet r.users userId

/-- Room.isEmpty: size is zero. -/
def Room.isEmpty (r : Room) : Bool :=
  mapSize r.users == 0

/-- Room.isFull: size is at least maxUsers. -/
def Room.isFull (r : Room) : Bool :=
  decide (mapSize r.users ≥ r.maxUsers)

/-- Wire messages the server can deliver to a connection.  The payload
shapes follow the emit calls of the server: offer and answer carry the
sending User as a separate argument, candidate carries only the payload,
joined carries the user, the room, the isCreator flag and the optional
ICE configuration.  The full constructor is the capacity rejection named
by the protocol table; whether any handler actually emits it is settled
by the theorems below. -/
inductive Msg where
  | joined (user : User) (room : Room) (isCreator : Bool)
      (iceServers : Option (List IceServer))
  | ready
  | offer (sender : User) (sdp : String)
  | answer (sender : User) (sdp : String)
  | candidate (payload : String)
  | leave (user : User)
  | log (text : String)
  | full
deriving Repr, DecidableEq

/-- Discriminator for diagnostic log messages. -/
def Msg.isLog : Msg → Bool
  | Msg.log _ => true
  | _ => false

/-- Per-connection closure state of the connection handler: the room
binding and the user binding, both unset until assigned by join. -/
structure Session where
  room : Option String
  user : Option User
deriving Repr, DecidableEq

/-- Whole-server state: the room registry, the transport broadcast
groups (socket.io rooms, one list of connection ids per room id), the
per-connection sessions, and the cached ICE configuration (absent until
the startup fetch completes). -/
structure ServerState where
  rooms : List (String × Room)
  groups : List (String × List String)
  sessions : List (String × Session)
  iceServers : Option (List IceServer)
deriving Repr, DecidableEq

/-- State at process start: empty registry, no groups, no sessions. -/
def initState (ice : Option (List IceServer)) : ServerState :=
  ⟨[], [], [], ice⟩

/-- Connection ids currently subscribed to a broadcast group. -/
def groupMembers (s : ServerState) (roomId : String) : List String :=
  (mapGet s.groups roomId).getD []

/-- Insert a connection into a broadcast group if not yet present. -/
def insertConn (g : List String) (conn : String) : List String :=
  if conn ∈ g then g else g ++ [conn]

/-- socket.join: subscribe a connection to a broadcast group (a set:
re-joining is a no-op). -/
def socketJoin (s : ServerState) (conn roomId : String) : ServerState :=
  { s with groups := mapSet s.groups roomId (insertConn (groupMembers s roomId) conn) }

/-- The closure state of a connection; fresh connections start unbound. -/
def sessionOf (s : ServerState) (conn : String) : Session :=
  (mapGet s.sessions conn).getD ⟨none, none⟩

/-- socket.emit: deliver to the handling connection only. -/
def emitSelf (conn : String) (m : Msg) : List (String × Msg) :=
  [(conn, m)]

/-- io.to(room).emit: deliver to every connection of the group. -/
def emitIoTo (s : ServerState) (roomId : String) (m : Msg) : List (String × Msg) :=
  (groupMembers s roomId).map (fun c => (c, m))

/-- The connections of a broadcast group other than a given one. -/
def others (g : List String) (conn : String) : List String :=
  g.filter (fun c => decide (c ≠ conn))

/-- socket.to(room).emit: deliver to every connection of the group
except the sending connection. -/
def emitSocketTo (s : ServerState) (senderConn roomId : String) (m : Msg) :
    List (String × Msg) :=
  (others (groupMembers s roomId) senderConn).map (fun c => (c, m))

/-- First phase of the join handler: resolve the room binding.  When the
room id is known and already contains the stable user id, the stale
entry is evicted (rejoin path); when the room id is unknown a fresh Room
is created with the joining user as creator and stored.  Returns the
resolved room, the updated registry, and the log emissions of this
phase. -/
def joinResolve (s : ServerState) (now : Nat) (roomId userId username : String) :
    Room × List (String × Room) × List (String × Msg) :=
  match mapGet s.rooms roomId with
  | some r =>
    if r.hasUser userId then
      let evs := emitIoTo s r.id (Msg.log ("[" ++ r.id ++ "] - User " ++ username
        ++ " with ID " ++ userId ++ " already in the room. Rejoin"))
      let r0 := r.removeUser userId
      (r0, mapSet s.rooms roomId r0, evs)
    else (r, s.rooms, [])
  | none =>
    let r0 := Room.new roomId userId now
    let rooms1 := mapSet s.rooms r0.id r0
    let evs := emitIoTo s r0.id (Msg.log ("Room \"" ++ r0.id ++ "\" created by user "
      ++ username))
    (r0, rooms1, evs)

/-- The join handler.  Mirrors the event handler statement by statement:
resolve or create the room (evicting a stale entry for the same stable
user id first), reject when the room is full, otherwise construct the
User, add it, subscribe the connection to the broadcast group, emit
joined to the joining connection and, when the room became full, ready
to the other connections of the group.  The closure variable room is
assigned on every path (including the rejection path); the closure
variable user only on success.  Registry updates are keyed by the lookup
key, matching in-place mutation of the object stored under that key. -/
def handleJoin (s : ServerState) (now : Nat)
    (conn roomId userId username : String) (config : Bool) :
    ServerState × List (String × Msg) :=
  let resolved := joinResolve s now roomId userId username
  let room0 := resolved.1
  let s1 : ServerState := { s with rooms := resolved.2.1 }
  let evs1 := resolved.2.2
  if room0.isFull then
    let evs2 := emitIoTo s1 room0.id (Msg.log ("[" ++ room0.id ++ "] - Room is full"))
    let sess := sessionOf s conn
    ({ s1 with sessions := mapSet s1.sessions conn ⟨some room0.id, sess.user⟩ },
      evs1 ++ evs2)
  else
    let u : User := ⟨userId, conn, username, room0.id, now⟩
    let room1 := room0.addUser u
    let s2 : ServerState := { s1 with rooms := mapSet s1.rooms roomId room1 }
    let s3 := socketJoin s2 conn room1.id
    let evs3 := emitIoTo s3 room1.id (Msg.log ("[" ++ room1.id ++ "] - User "
      ++ u.name ++ " joined"))
    let evs4 := emitSelf conn (Msg.joined u room1 (room1.isCreator userId)
      (if config then s.iceServers else none))
    let evs5 := if room1.isFull then emitSocketTo s3 conn room1.id Msg.ready else []
    ({ s3 with sessions := mapSet s3.sessions conn ⟨some room0.id, some u⟩ },
      evs1 ++ evs3 ++ evs4 ++ evs5)

/-- The offer handler.  The first statement interpolates room.id and
user.name into the log line, so a connection whose closure bindings are
unset throws a TypeError before any emission or mutation; the model
returns an error in that case.  On a bound session the payload is
forwarded, tagged with the sending User, to the group except the sender. -/
def handleOffer (s : ServerState) (conn sdp : String) :
    Except String (ServerState × List (String × Msg)) :=
  let sess := sessionOf s conn
  match sess.room, sess.user with
  | some rid, some u =>
    let evs1 := emitIoTo s rid (Msg.log ("[" ++ rid ++ "] - User " ++ u.name ++ " offer"))
    let evs2 := emitSocketTo s conn rid (Msg.offer u sdp)
    Except.ok (s, evs1 ++ evs2)
  | _, _ => Except.error "TypeError"

/-- The answer handler, structurally identical to the offer handler. -/
def handleAnswer (s : ServerState) (conn sdp : String) :
    Except String (ServerState × List (String × Msg)) :=
  let sess := sessionOf s conn
  match sess.room, sess.user with
  | some rid, some u =>
    let evs1 := emitIoTo s rid (Msg.log ("[" ++ rid ++ "] - User " ++ u.name ++ " answer"))
    let evs2 := emitSocketTo s conn rid (Msg.answer u sdp)
    Except.ok (s, evs1 ++ evs2)
  | _, _ => Except.error "TypeError"

/-- The candidate handler.  Unlike offer and answer, the forwarded
message carries only the candidate payload: the emit call does not pass
the sending User. -/
def handleCandidate (s : ServerState) (conn payload : String) :
    Except String (ServerState × List (String × Msg)) :=
  let sess := sessionOf s conn
  match sess.room, sess.user with
  | some rid, some u =>
    let evs1 := emitIoTo s rid (Msg.log ("[" ++ rid ++ "] - User " ++ u.name ++ " candidate"))
    let evs2 := emitSocketTo s conn rid (Msg.candidate payload)
    Except.ok (s, evs1 ++ evs2)
  | _, _ => Except.error "TypeError"

/-- The leave handler.  The log line interpolates room.id and user.name,
so an unbound session throws before any effect.  On a bound session the
user is removed from the room, a leave event is broadcast to the group
except the sender (the handler never unsubscribes the connection from
the group), and the room is deleted from the registry when it became
empty.  The model tracks only registry-resident rooms: when the closure
binding refers to a room id no longer in the registry, the membership
mutation on the detached object is invisible and only the broadcast
remains observable. -/
def handleLeave (s : ServerState) (conn : String) :
    Except String (ServerState × List (String × Msg)) :=
  let sess := sessionOf s conn
  match sess.room, sess.user with
  | some rid, some u =>
    let evs1 := emitIoTo s rid (Msg.log ("[" ++ rid ++ "] - User " ++ u.name ++ " left"))
    match mapGet s.rooms rid with
    | some room =>
      let room1 := room.removeUser u.id
      let s1 : ServerState := { s with rooms := mapSet s.rooms rid room1 }
      let evs2 := emitSocketTo s1 conn rid (Msg.leave u)
      if room1.isEmpty then
        let evs3 := emitIoTo s1 rid (Msg.log ("[" ++ rid ++ "] - Empty room"))
        Except.ok ({ s1 with rooms := mapDelete s1.rooms rid }, evs1 ++ evs2 ++ evs3)
      else Except.ok (s1, evs1 ++ evs2)
    | none =>
      let evs2 := emitSocketTo s conn rid (Msg.leave u)
      Except.ok (s, evs1 ++ evs2)
  | _, _ => Except.error "TypeError"

/-- The disconnect handler of the server only logs; the transport layer
removes the connection from every broadcast group and discards the
per-connection closure.  No registry mutation happens. -/
def handleDisconnect (s : ServerState) (conn : String) :
    ServerState × List (String × Msg) :=
  ({ s with
      groups := s.groups.map (fun p => (p.1, others p.2 conn)),
      sessions := mapDelete s.sessions conn }, [])

/-- Protocol operations arriving at the server. -/
inductive Op where
  | join (conn roomId userId username : String) (config : Bool)
  | offer (conn sdp : String)
  | answer (conn sdp : String)
  | candidate (conn payload : String)
  | leave (conn : String)
  | disconnect (conn : String)
deriving Repr, DecidableEq

/-- One protocol step.  A handler that throws leaves the state unchanged
and delivers nothing (the exception interrupts the handler before any
effect). -/
def step (s : ServerState) (now : Nat) (op : Op) : ServerState × List (String × Msg) :=
  match op with
  | Op.join conn roomId userId username config =>
      handleJoin s now conn roomId userId username config
  | Op.offer conn sdp =>
      match handleOffer s conn sdp with
      | Except.ok r => r
      | Except.error _ => (s, [])
  | Op.answer conn sdp =>
      match handleAnswer s conn sdp with
      | Except.ok r => r
      | Except.error _ => (s, [])
  | Op.candidate conn payload =>
      match handleCandidate s conn payload with
      | Except.ok r => r
      | Except.error _ => (s, [])
  | Op.leave conn =>
      match handleLeave s conn with
      | Except.ok r => r
      | Except.error _ => (s, [])
  | Op.disconnect conn => handleDisconnect s conn

/-- Run a timestamped sequence of operations from a state. -/
def run (s : ServerState) (ops : List (Nat × Op)) : ServerState :=
  ops.foldl (fun st p => (step st p.1 p.2).1) s

/-! ### Association-list lemmas (JS Map semantics) -/


section MapLemmas

variable {α : Type}

theorem mapGet_mapSet_self (m : List (String × α)) (k : String) (v : α) :
    mapGet (mapSet m k v) k = some v := by
  induction m with
  | nil => simp [mapSet, mapGet]
  | cons p t ih => by_cases h : p.1 = k <;> simp [mapSet, mapGet, h, ih]

theorem mapGet_mapSet_ne (m : List (String × α)) (k k₂ : String) (v : α)
    (h : k₂ ≠ k) : mapGet (mapSet m k v) k₂ = mapGet m k₂ := by
  have hkk : ¬ k = k₂ := fun hh => h hh.symm
  induction m with
  | nil => simp only [mapSet, mapGet, if_neg hkk]
  | cons p t ih =>
    by_cases hp : p.1 = k
    · simp only [mapSet, hp, if_true, mapGet, if_neg hkk]
    · simp only [mapSet, hp, if_false, mapGet, ih]

theorem mapGet_mapDelete_self (m : List (String × α)) (k : String) :
    mapGet (mapDelete m k) k = none := by
  induction m with
  | nil => rfl
  | cons p t ih =>
    by_cases hp : p.1 = k
    · simpa [mapDelete, List.filter_cons, hp] using ih
    · simpa [mapDelete, List.filter_cons, hp, mapGet] using ih

theorem mapGet_mapDelete_ne (m : List (String × α)) (k k₂ : String)
    (h : k₂ ≠ k) : mapGet (mapDelete m k) k₂ = mapGet m k₂ := by
  induction m with
  | nil => rfl
  | cons p t ih =>
    by_cases hp : p.1 = k
    · have hne : ¬ p.1 = k₂ := by rw [hp]; exact fun hh => h hh.symm
      have h1 : (!decide (p.1 = k)) = false := by simp [hp]
      simp only [mapDelete, List.filter_cons, decide_not, h1, Bool.false_eq_true, if_false,
        mapGet, hne]
      simpa [mapDelete, decide_not] using ih
    · have h1 : (!decide (p.1 = k)) = true := by simp [hp]
      simp only [mapDelete, List.filter_cons, decide_not, h1, if_true, mapGet]
      by_cases hq : p.1 = k₂
      · simp only [hq, if_true]
      · simp only [hq, if_false]
        simpa [mapDelete, decide_not] using ih

theorem mapHas_iff_mem_keys (m : List (String × α)) (k : String) :
    mapHas m k = true ↔ k ∈ m.map Prod.fst := by
  induction m with
  | nil => simp [mapHas]
  | cons p t ih =>
    by_cases hp : p.1 = k
    · simp [mapHas, hp]
    · simp only [mapHas, hp, if_false, List.map_cons, List.mem_cons, ih]
      constructor
      · exact Or.inr
      · rintro (h1 | h1)
        · exact absurd h1.symm hp
        · exact h1

theorem mapGet_mem (m : List (String × α)) (k : String) (v : α)
    (h : mapGet m k = some v) : (k, v) ∈ m := by
  induction m with
  | nil => simp [mapGet] at h
  | cons p t ih =>
    by_cases hp : p.1 = k
    · simp only [mapGet, hp, if_true, Option.some.injEq] at h
      cases p with
      | mk a b =>
        simp only at hp h
        subst hp
        subst h
        exact List.mem_cons_self _ _
    · simp only [mapGet, hp, if_false] at h
      exact List.mem_cons_of_mem _ (ih h)

theorem mapHas_of_mapGet_some (m : List (String × α)) (k : String) (v : α)
    (h : mapGet m k = some v) : mapHas m k = true := by
  rw [mapHas_iff_mem_keys]
  exact List.mem_map.mpr ⟨(k, v), mapGet_mem m k v h, rfl⟩

theorem mapHas_false_of_mapGet_none (m : List (String × α)) (k : String)
    (h : mapGet m k = none) : mapHas m k = false := by
  induction m with
  | nil => simp [mapHas]
  | cons p t ih =>
    by_cases hp : p.1 = k
    · simp [mapGet, hp] at h
    · simp only [mapGet, hp, if_false] at h
      simp [mapHas, hp, ih h]

theorem length_mapSet (m : List (String × α)) (k : String) (v : α) :
    (mapSet m k v).length = if mapHas m k then m.length else m.length + 1 := by
  induction m with
  | nil => simp [mapSet, mapHas]
  | cons p t ih =>
    by_cases h : p.1 = k
    · simp [mapSet, mapHas, h]
    · simp only [mapSet, mapHas, h, if_false, List.length_cons, ih]
      by_cases ht : mapHas t k <;> simp [ht]

theorem mem_mapSet (m : List (String × α)) (k : String) (v : α) (q : String × α)
    (h : q ∈ mapSet m k v) : q = (k, v) ∨ q ∈ m := by
  induction m with
  | nil => simp [mapSet] at h; simp [h]
  | cons p t ih =>
    by_cases hp : p.1 = k
    · simp only [mapSet, hp, if_true, List.mem_cons] at h
      rcases h with h | h
      · exact Or.inl h
      · exact Or.inr (List.mem_cons_of_mem _ h)
    · simp only [mapSet, hp, if_false, List.mem_cons] at h
      rcases h with h | h
      · exact Or.inr (by rw [h]; exact List.mem_cons_self _ _)
      · rcases ih h with h2 | h2
        · exact Or.inl h2
        · exact Or.inr (List.mem_cons_of_mem _ h2)

theorem keys_mapSet_of_has (m : List (String × α)) (k : String) (v : α)
    (h : mapHas m k = true) : (mapSet m k v).map Prod.fst = m.map Prod.fst := by
  induction m with
  | nil => simp [mapHas] at h
  | cons p t ih =>
    by_cases hp : p.1 = k
    · simp [mapSet, hp]
    · simp only [mapHas, hp, if_false] at h
      simp [mapSet, hp, ih h]

theorem keys_mapSet_of_not_has (m : List (String × α)) (k : String) (v : α)
    (h : mapHas m k = false) : (mapSet m k v).map Prod.fst = m.map Prod.fst ++ [k] := by
  induction m with
  | nil => simp [mapSet]
  | cons p t ih =>
    by_cases hp : p.1 = k
    · simp [mapHas, hp] at h
    · simp only [mapHas, hp, if_false] at h
      simp [mapSet, hp, ih h]

theorem keys_nodup_mapSet (m : List (String × α)) (k : String) (v : α)
    (h : (m.map Prod.fst).Nodup) : ((mapSet m k v).map Prod.fst).Nodup := by
  by_cases hh : mapHas m k
  · rw [keys_mapSet_of_has m k v hh]; exact h
  · rw [keys_mapSet_of_not_has m k v (by simpa using hh)]
    rw [List.nodup_append]
    refine ⟨h, List.nodup_singleton k, ?_⟩
    intro a ha hb
    simp only [List.mem_singleton] at hb
    subst hb
    exact absurd ((mapHas_iff_mem_keys m a).mpr ha) (by simpa using hh)

theorem mapDelete_eq_self_of_not_has (m : List (String × α)) (k : String)
    (h : mapHas m k = false) : mapDelete m k = m := by
  induction m with
  | nil => rfl
  | cons p t ih =>
    by_cases hp : p.1 = k
    · simp [mapHas, hp] at h
    · simp only [mapHas, hp, if_false] at h
      have h1 : (!decide (p.1 = k)) = true := by simp [hp]
      simp only [mapDelete, List.filter_cons, decide_not, h1, if_true]
      rw [show List.filter (fun q => !decide (q.1 = k)) t = mapDelete t k from by
        simp [mapDelete, decide_not]]
      rw [ih h]

theorem length_mapDelete_of_has (m : List (String × α)) (k : String)
    (hnd : (m.map Prod.fst).Nodup) (h : mapHas m k = true) :
    (mapDelete m k).length + 1 = m.length := by
  induction m with
  | nil => simp [mapHas] at h
  | cons p t ih =>
    simp only [List.map_cons, List.nodup_cons] at hnd
    by_cases hp : p.1 = k
    · have hnt : mapHas t k = false := by
        by_contra hc
        have : k ∈ t.map Prod.fst := (mapHas_iff_mem_keys t k).mp (by simpa using hc)
        rw [hp] at hnd
        exact hnd.1 this
      have h1 : (decide (p.1 ≠ k)) = false := by simp [hp]
      simp only [mapDelete, List.filter_cons, h1, Bool.false_eq_true, if_false]
      rw [show List.filter (fun q => decide (q.1 ≠ k)) t = mapDelete t k from rfl]
      rw [mapDelete_eq_self_of_not_has t k hnt]
      simp
    · simp only [mapHas, hp, if_false] at h
      have h1 : (decide (p.1 ≠ k)) = true := by simp [hp]
      simp only [mapDelete, List.filter_cons, h1, if_true, List.length_cons]
      have h2 := ih hnd.2 h
      simp only [mapDelete] at h2
      omega

theorem length_mapDelete_le (m : List (String × α)) (k : String) :
    (mapDelete m k).length ≤ m.length :=
  List.length_filter_le _ m

theorem mapHas_mapDelete_self (m : List (String × α)) (k : String) :
    mapHas (mapDelete m k) k = false := by
  induction m with
  | nil => rfl
  | cons p t ih =>
    by_cases hp : p.1 = k
    · have h1 : (decide (p.1 ≠ k)) = false := by simp [hp]
      simp only [mapDelete, List.filter_cons, h1, Bool.false_eq_true, if_false]
      simpa [mapDelete] using ih
    · have h1 : (decide (p.1 ≠ k)) = true := by simp [hp]
      simp only [mapDelete, List.filter_cons, h1, if_true, mapHas, hp, if_false]
      simpa [mapDelete] using ih

theorem keys_mapDelete_sublist (m : List (String × α)) (k : String) :
    ((mapDelete m k).map Prod.fst).Sublist (m.map Prod.fst) :=
  (List.filter_sublist m).map Prod.fst

theorem mem_mapDelete (m : List (String × α)) (k : String) (q : String × α)
    (h : q ∈ mapDelete m k) : q ∈ m :=
  List.mem_of_mem_filter h

end MapLemmas

/-! ### Reachable-state invariant -/

/-- Well-formedness of one registry entry: the room is stored under its
own id, its capacity is the constructor default 2, its membership map
has no duplicate keys and at most maxUsers entries. -/
def RoomOk (p : String × Room) : Prop :=
  p.2.id = p.1 ∧ p.2.maxUsers = 2 ∧ (p.2.users.map Prod.fst).Nodup ∧
    p.2.users.length ≤ 2

instance (p : String × Room) : Decidable (RoomOk p) := by
  unfold RoomOk; infer_instance

/-- Invariant of reachable server states: registry, group and session
maps have no duplicate keys, every registry entry is well formed, and
every broadcast group lists each connection at most once. -/
def Inv (s : ServerState) : Prop :=
  (s.rooms.map Prod.fst).Nodup ∧
  (s.groups.map Prod.fst).Nodup ∧
  (s.sessions.map Prod.fst).Nodup ∧
  (∀ p ∈ s.rooms, RoomOk p) ∧
  (∀ g ∈ s.groups, g.2.Nodup)

instance (s : ServerState) : Decidable (Inv s) := by
  unfold Inv; infer_instance

theorem Inv_initState (ice : Option (List IceServer)) : Inv (initState ice) := by
  constructor <;> simp [initState]

theorem RoomOk_removeUser (k : String) (r : Room) (uid : String)
    (h : RoomOk (k, r)) : RoomOk (k, r.removeUser uid) := by
  obtain ⟨h1, h2, h3, h4⟩ := h
  refine ⟨h1, h2, ?_, ?_⟩
  · exact (keys_mapDelete_sublist r.users uid).nodup h3
  · exact le_trans (length_mapDelete_le r.users uid) h4

theorem RoomOk_addUser (k : String) (r : Room) (u : User)
    (h : RoomOk (k, r)) (hfull : r.isFull = false) : RoomOk (k, r.addUser u) := by
  obtain ⟨h1, h2, h3, h4⟩ := h
  have h2x : r.maxUsers = 2 := h2
  have hlt : r.users.length < 2 := by
    have hx := of_decide_eq_false hfull
    simp only [mapSize] at hx
    omega
  refine ⟨h1, h2, keys_nodup_mapSet r.users u.id u h3, ?_⟩
  show (mapSet r.users u.id u).length ≤ 2
  rw [length_mapSet]
  by_cases hh : mapHas r.users u.id <;> simp [hh] <;> omega

theorem nodup_if_insert (g : List String) (conn : String) (h : g.Nodup) :
    (if conn ∈ g then g else g ++ [conn]).Nodup := by
  by_cases hc : conn ∈ g
  · simpa [hc] using h
  · simp only [hc, if_false]
    rw [List.nodup_append]
    refine ⟨h, List.nodup_singleton conn, ?_⟩
    intro a ha hb
    simp only [List.mem_singleton] at hb
    subst hb
    exact hc ha

theorem RoomOk_of_mapGet (s : ServerState) (rid : String) (r : Room)
    (h : Inv s) (hg : mapGet s.rooms rid = some r) : RoomOk (rid, r) :=
  h.2.2.2.1 (rid, r) (mapGet_mem _ _ _ hg)

theorem groupMembers_nodup (s : ServerState) (rid : String) (h : Inv s) :
    (groupMembers s rid).Nodup := by
  unfold groupMembers
  cases hg : mapGet s.groups rid with
  | none => simp
  | some l =>
    simp only [Option.getD_some]
    exact h.2.2.2.2 (rid, l) (mapGet_mem _ _ _ hg)

theorem RoomOk_joinResolve (s : ServerState) (now : Nat)
    (roomId userId username : String) (h : Inv s) :
    RoomOk (roomId, (joinResolve s now roomId userId username).1) := by
  unfold joinResolve
  cases hg : mapGet s.rooms roomId with
  | some r =>
    have hr := RoomOk_of_mapGet s roomId r h hg
    by_cases hu : r.hasUser userId
    · simp only [hu, if_true]
      exact RoomOk_removeUser roomId r userId hr
    · simp only [hu, if_false]
      exact hr
  | none =>
    refine ⟨rfl, rfl, ?_, ?_⟩ <;> simp [Room.new]

theorem joinResolve_rooms_keys (s : ServerState) (now : Nat)
    (roomId userId username : String) (h : Inv s) :
    (((joinResolve s now roomId userId username).2.1).map Prod.fst).Nodup := by
  unfold joinResolve
  cases hg : mapGet s.rooms roomId with
  | some r =>
    by_cases hu : r.hasUser userId
    · simp only [hu, if_true]
      exact keys_nodup_mapSet _ _ _ h.1
    · simp only [hu, if_false]
      exact h.1
  | none =>
    exact keys_nodup_mapSet _ _ _ h.1

theorem joinResolve_rooms_ok (s : ServerState) (now : Nat)
    (roomId userId username : String) (h : Inv s) :
    ∀ p ∈ (joinResolve s now roomId userId username).2.1, RoomOk p := by
  unfold joinResolve
  cases hg : mapGet s.rooms roomId with
  | some r =>
    have hr := RoomOk_of_mapGet s roomId r h hg
    by_cases hu : r.hasUser userId
    · simp only [hu, if_true]
      intro p hp
      rcases mem_mapSet _ _ _ _ hp with h1 | h1
      · rw [h1]
        exact RoomOk_removeUser roomId r userId hr
      · exact h.2.2.2.1 p h1
    · simp only [hu, if_false]
      exact h.2.2.2.1
  | none =>
    intro p hp
    rcases mem_mapSet _ _ _ _ hp with h1 | h1
    · rw [h1]
      refine ⟨rfl, rfl, ?_, ?_⟩ <;> simp [Room.new]
    · exact h.2.2.2.1 p h1

theorem Inv_handleJoin (s : ServerState) (now : Nat)
    (conn roomId userId username : String) (config : Bool) (h : Inv s) :
    Inv (handleJoin s now conn roomId userId username config).1 := by
  have hJ1 := RoomOk_joinResolve s now roomId userId username h
  have hJ2 := joinResolve_rooms_keys s now roomId userId username h
  have hJ3 := joinResolve_rooms_ok s now roomId userId username h
  unfold handleJoin
  by_cases hf : (joinResolve s now roomId userId username).1.isFull
  · simp only [hf, if_true]
    refine ⟨hJ2, h.2.1, keys_nodup_mapSet _ _ _ h.2.2.1, hJ3, h.2.2.2.2⟩
  · simp only [hf, Bool.false_eq_true, if_false]
    refine ⟨?_, ?_, keys_nodup_mapSet _ _ _ h.2.2.1, ?_, ?_⟩
    · exact keys_nodup_mapSet _ _ _ hJ2
    · exact keys_nodup_mapSet _ _ _ h.2.1
    · intro p hp
      rcases mem_mapSet _ _ _ _ hp with h1 | h1
      · rw [h1]
        exact RoomOk_addUser roomId _ _ hJ1 (by simpa using hf)
      · exact hJ3 p h1
    · intro g hg
      rcases mem_mapSet _ _ _ _ hg with h1 | h1
      · rw [h1]
        exact nodup_if_insert _ conn
          (groupMembers_nodup s
            ((joinResolve s now roomId userId username).1.addUser
              ⟨userId, conn, username, (joinResolve s now roomId userId username).1.id, now⟩).id h)
      · exact h.2.2.2.2 g h1

theorem step_offer_state (s : ServerState) (now : Nat) (conn sdp : String) :
    (step s now (Op.offer conn sdp)).1 = s := by
  simp only [step, handleOffer]
  rcases hs : sessionOf s conn with ⟨sr, su⟩
  cases sr <;> cases su <;> simp

theorem step_answer_state (s : ServerState) (now : Nat) (conn sdp : String) :
    (step s now (Op.answer conn sdp)).1 = s := by
  simp only [step, handleAnswer]
  rcases hs : sessionOf s conn with ⟨sr, su⟩
  cases sr <;> cases su <;> simp

theorem step_candidate_state (s : ServerState) (now : Nat) (conn payload : String) :
    (step s now (Op.candidate conn payload)).1 = s := by
  simp only [step, handleCandidate]
  rcases hs : sessionOf s conn with ⟨sr, su⟩
  cases sr <;> cases su <;> simp

theorem Inv_step_leave (s : ServerState) (now : Nat) (conn : String) (h : Inv s) :
    Inv (step s now (Op.leave conn)).1 := by
  simp only [step, handleLeave]
  rcases hs : sessionOf s conn with ⟨sr, su⟩
  cases sr with
  | none => cases su <;> simpa using h
  | some rid =>
    cases su with
    | none => simpa using h
    | some u =>
      cases hg : mapGet s.rooms rid with
      | none => simpa [hg] using h
      | some room =>
        simp only [hg]
        by_cases he : (room.removeUser u.id).isEmpty
        · simp only [he, if_true]
          refine ⟨?_, h.2.1, h.2.2.1, ?_, h.2.2.2.2⟩
          · exact (keys_mapDelete_sublist _ _).nodup (keys_nodup_mapSet _ _ _ h.1)
          · intro p hp
            have hp2 := mem_mapDelete _ _ _ hp
            rcases mem_mapSet _ _ _ _ hp2 with h1 | h1
            · rw [h1]
              exact RoomOk_removeUser rid room u.id (RoomOk_of_mapGet s rid room h hg)
            · exact h.2.2.2.1 p h1
        · simp only [he, Bool.false_eq_true, if_false]
          refine ⟨keys_nodup_mapSet _ _ _ h.1, h.2.1, h.2.2.1, ?_, h.2.2.2.2⟩
          intro p hp
          rcases mem_mapSet _ _ _ _ hp with h1 | h1
          · rw [h1]
            exact RoomOk_removeUser rid room u.id (RoomOk_of_mapGet s rid room h hg)
          · exact h.2.2.2.1 p h1

theorem Inv_step_disconnect (s : ServerState) (now : Nat) (conn : String) (h : Inv s) :
    Inv (step s now (Op.disconnect conn)).1 := by
  simp only [step, handleDisconnect]
  refine ⟨h.1, ?_, ?_, h.2.2.2.1, ?_⟩
  · rw [List.map_map]
    have hc : (Prod.fst ∘ fun p : String × List String => (p.1, others p.2 conn))
        = Prod.fst := rfl
    rw [hc]
    exact h.2.1
  · exact (keys_mapDelete_sublist _ _).nodup h.2.2.1
  · intro g hg
    rcases List.mem_map.mp hg with ⟨p, hp, rfl⟩
    exact (h.2.2.2.2 p hp).filter _

theorem Inv_step (s : ServerState) (now : Nat) (op : Op) (h : Inv s) :
    Inv (step s now op).1 := by
  cases op with
  | join conn roomId userId username config =>
      exact Inv_handleJoin s now conn roomId userId username config h
  | offer conn sdp => rw [step_offer_state]; exact h
  | answer conn sdp => rw [step_answer_state]; exact h
  | candidate conn payload => rw [step_candidate_state]; exact h
  | leave conn => exact Inv_step_leave s now conn h
  | disconnect conn => exact Inv_step_disconnect s now conn h

theorem Inv_run (s : ServerState) (ops : List (Nat × Op)) (h : Inv s) :
    Inv (run s ops) := by
  induction ops generalizing s with
  | nil => simpa [run] using h
  | cons p t ih =>
    rw [run, List.foldl_cons]
    exact ih _ (Inv_step s p.1 p.2 h)

/-! ### Delivery-extraction helpers -/

/-- The targets of the ready deliveries in an emission list. -/
def readyTargets (evs : List (String × Msg)) : List String :=
  evs.filterMap (fun d => match d.2 with
    | Msg.ready => some d.1
    | _ => none)

/-- The joined deliveries in an emission list: target connection,
carried user, carried room snapshot, isCreator flag, carried config. -/
def joinedEvents (evs : List (String × Msg)) :
    List (String × User × Room × Bool × Option (List IceServer)) :=
  evs.filterMap (fun d => match d.2 with
    | Msg.joined u r b c => some (d.1, u, r, b, c)
    | _ => none)

/-- Deliveries that are not diagnostic log messages. -/
def nonLogEvents (evs : List (String × Msg)) : List (String × Msg) :=
  evs.filter (fun d => !(Msg.isLog d.2))

theorem readyTargets_append (a b : List (String × Msg)) :
    readyTargets (a ++ b) = readyTargets a ++ readyTargets b :=
  List.filterMap_append a b _

theorem joinedEvents_append (a b : List (String × Msg)) :
    joinedEvents (a ++ b) = joinedEvents a ++ joinedEvents b :=
  List.filterMap_append a b _

theorem nonLogEvents_append (a b : List (String × Msg)) :
    nonLogEvents (a ++ b) = nonLogEvents a ++ nonLogEvents b :=
  List.filter_append a b

theorem readyTargets_eq_nil_of_log (evs : List (String × Msg))
    (h : ∀ d ∈ evs, d.2.isLog = true) : readyTargets evs = [] := by
  induction evs with
  | nil => rfl
  | cons d t ih =>
    have hd := h d (List.mem_cons_self d t)
    cases hm : d.2 <;> rw [hm] at hd <;> simp [Msg.isLog] at hd <;>
      simp only [readyTargets, List.filterMap_cons, hm] <;>
      exact ih (fun e he => h e (List.mem_cons_of_mem d he))

theorem joinedEvents_eq_nil_of_log (evs : List (String × Msg))
    (h : ∀ d ∈ evs, d.2.isLog = true) : joinedEvents evs = [] := by
  induction evs with
  | nil => rfl
  | cons d t ih =>
    have hd := h d (List.mem_cons_self d t)
    cases hm : d.2 <;> rw [hm] at hd <;> simp [Msg.isLog] at hd <;>
      simp only [joinedEvents, List.filterMap_cons, hm] <;>
      exact ih (fun e he => h e (List.mem_cons_of_mem d he))

theorem nonLogEvents_eq_nil_of_log (evs : List (String × Msg))
    (h : ∀ d ∈ evs, d.2.isLog = true) : nonLogEvents evs = [] := by
  induction evs with
  | nil => rfl
  | cons d t ih =>
    have hd := h d (List.mem_cons_self d t)
    simp only [nonLogEvents, List.filter_cons, hd, Bool.not_true, Bool.false_eq_true,
      if_false]
    exact ih (fun e he => h e (List.mem_cons_of_mem d he))

theorem mem_map_pair_isLog (l : List String) (m : Msg) (d : String × Msg)
    (h : d ∈ l.map (fun c => (c, m))) : d.2 = m := by
  rcases List.mem_map.mp h with ⟨c, _, rfl⟩
  rfl

theorem emitIoTo_log (s : ServerState) (rid t : String) :
    ∀ d ∈ emitIoTo s rid (Msg.log t), d.2.isLog = true := by
  intro d hd
  rw [mem_map_pair_isLog _ _ _ hd]
  rfl

theorem readyTargets_map_ready (l : List String) :
    readyTargets (l.map (fun c => (c, Msg.ready))) = l := by
  induction l with
  | nil => rfl
  | cons c t ih => simp only [List.map_cons, readyTargets, List.filterMap_cons] at ih ⊢; rw [ih]

theorem joinedEvents_map_ready (l : List String) :
    joinedEvents (l.map (fun c => (c, Msg.ready))) = [] := by
  induction l with
  | nil => rfl
  | cons c t ih => simp only [List.map_cons, joinedEvents, List.filterMap_cons] at ih ⊢; rw [ih]

theorem joinResolve_evs_log (s : ServerState) (now : Nat)
    (roomId userId username : String) :
    ∀ d ∈ (joinResolve s now roomId userId username).2.2, d.2.isLog = true := by
  unfold joinResolve
  cases hg : mapGet s.rooms roomId with
  | some r =>
    by_cases hu : r.hasUser userId
    · simp only [hu, if_true]
      exact emitIoTo_log s r.id _
    · simp only [hu, if_false]
      intro d hd
      simp at hd
  | none =>
    exact emitIoTo_log s roomId _

theorem socketJoin_rooms (s : ServerState) (conn rid : String) :
    (socketJoin s conn rid).rooms = s.rooms := rfl

theorem groupMembers_socketJoin_self (s : ServerState) (conn rid : String) :
    groupMembers (socketJoin s conn rid) rid = insertConn (groupMembers s rid) conn := by
  unfold socketJoin groupMembers
  simp [mapGet_mapSet_self]

theorem readyTargets_reject (evs1 : List (String × Msg))
    (h1 : ∀ d ∈ evs1, d.2.isLog = true) (s1 : ServerState) (rid t : String) :
    readyTargets (evs1 ++ emitIoTo s1 rid (Msg.log t)) = [] := by
  rw [readyTargets_append, readyTargets_eq_nil_of_log _ h1,
    readyTargets_eq_nil_of_log _ (emitIoTo_log s1 rid t)]
  rfl

theorem joinedEvents_reject (evs1 : List (String × Msg))
    (h1 : ∀ d ∈ evs1, d.2.isLog = true) (s1 : ServerState) (rid t : String) :
    joinedEvents (evs1 ++ emitIoTo s1 rid (Msg.log t)) = [] := by
  rw [joinedEvents_append, joinedEvents_eq_nil_of_log _ h1,
    joinedEvents_eq_nil_of_log _ (emitIoTo_log s1 rid t)]
  rfl

theorem readyTargets_success (evs1 : List (String × Msg))
    (h1 : ∀ d ∈ evs1, d.2.isLog = true) (s3 : ServerState) (rid t conn : String)
    (u : User) (r : Room) (b : Bool) (c : Option (List IceServer)) (full : Bool) :
    readyTargets (evs1 ++ emitIoTo s3 rid (Msg.log t)
        ++ emitSelf conn (Msg.joined u r b c)
        ++ (if full then emitSocketTo s3 conn rid Msg.ready else [])) =
      if full then others (groupMembers s3 rid) conn else [] := by
  rw [readyTargets_append, readyTargets_append, readyTargets_append,
    readyTargets_eq_nil_of_log _ h1,
    readyTargets_eq_nil_of_log _ (emitIoTo_log s3 rid t)]
  cases full with
  | false => rfl
  | true =>
    simp only [if_true]
    show ([] ++ [] ++ readyTargets (emitSelf conn (Msg.joined u r b c))
      ++ readyTargets (emitSocketTo s3 conn rid Msg.ready)) = _
    rw [show readyTargets (emitSelf conn (Msg.joined u r b c)) = [] from rfl]
    rw [show emitSocketTo s3 conn rid Msg.ready
      = (others (groupMembers s3 rid) conn).map (fun x => (x, Msg.ready)) from rfl]
    rw [readyTargets_map_ready]
    rfl

theorem joinedEvents_success (evs1 : List (String × Msg))
    (h1 : ∀ d ∈ evs1, d.2.isLog = true) (s3 : ServerState) (rid t conn : String)
    (u : User) (r : Room) (b : Bool) (c : Option (List IceServer)) (full : Bool) :
    joinedEvents (evs1 ++ emitIoTo s3 rid (Msg.log t)
        ++ emitSelf conn (Msg.joined u r b c)
        ++ (if full then emitSocketTo s3 conn rid Msg.ready else [])) =
      [(conn, u, r, b, c)] := by
  rw [joinedEvents_append, joinedEvents_append, joinedEvents_append,
    joinedEvents_eq_nil_of_log _ h1,
    joinedEvents_eq_nil_of_log _ (emitIoTo_log s3 rid t)]
  cases full with
  | false => rfl
  | true =>
    simp only [if_true]
    rw [show emitSocketTo s3 conn rid Msg.ready
      = (others (groupMembers s3 rid) conn).map (fun x => (x, Msg.ready)) from rfl]
    rw [joinedEvents_map_ready]
    rfl

/-- The ready deliveries of a join operation: none when the join is
rejected or does not fill the room; when the join fills the room, one
ready to every connection of the updated broadcast group except the
joining connection. -/
theorem step_join_readyTargets (s : ServerState) (now : Nat)
    (conn roomId userId username : String) (config : Bool) :
    readyTargets (step s now (Op.join conn roomId userId username config)).2 =
      if (joinResolve s now roomId userId username).1.isFull then []
      else if ((joinResolve s now roomId userId username).1.addUser
          ⟨userId, conn, username, (joinResolve s now roomId userId username).1.id,
            now⟩).isFull then
        others (insertConn (groupMembers s
          ((joinResolve s now roomId userId username).1.addUser
            ⟨userId, conn, username, (joinResolve s now roomId userId username).1.id,
              now⟩).id) conn) conn
      else [] := by
  simp only [step, handleJoin]
  by_cases hf : (joinResolve s now roomId userId username).1.isFull
  · simp only [hf, if_true]
    exact readyTargets_reject _ (joinResolve_evs_log s now roomId userId username) _ _ _
  · simp only [hf, Bool.false_eq_true, if_false]
    rw [readyTargets_success _ (joinResolve_evs_log s now roomId userId username)]
    by_cases hfull : ((joinResolve s now roomId userId username).1.addUser
        ⟨userId, conn, username, (joinResolve s now roomId userId username).1.id,
          now⟩).isFull
    · simp only [hfull, if_true]
      rw [groupMembers_socketJoin_self]
      rfl
    · simp only [hfull, Bool.false_eq_true, if_false]

/-- The joined deliveries of a join operation: none on rejection;
exactly one on success, to the joining connection, carrying the
constructed User, the post-insertion room snapshot, the isCreator flag
computed against the room creator, and the cached ICE configuration
exactly when the joiner asked for it. -/
theorem step_join_joinedEvents (s : ServerState) (now : Nat)
    (conn roomId userId username : String) (config : Bool) :
    joinedEvents (step s now (Op.join conn roomId userId username config)).2 =
      if (joinResolve s now roomId userId username).1.isFull then []
      else [(conn, ⟨userId, conn, username, (joinResolve s now roomId userId username).1.id, now⟩,
        (joinResolve s now roomId userId username).1.addUser
          ⟨userId, conn, username, (joinResolve s now roomId userId username).1.id, now⟩,
        ((joinResolve s now roomId userId username).1.addUser
          ⟨userId, conn, username, (joinResolve s now roomId userId username).1.id,
            now⟩).isCreator userId,
        if config then s.iceServers else none)] := by
  simp only [step, handleJoin]
  by_cases hf : (joinResolve s now roomId userId username).1.isFull
  · simp only [hf, if_true]
    exact joinedEvents_reject _ (joinResolve_evs_log s now roomId userId username) _ _ _
  · simp only [hf, Bool.false_eq_true, if_false]
    rw [joinedEvents_success _ (joinResolve_evs_log s now roomId userId username)]

/-! ### Concrete sample states -/

/-- A sample ICE configuration as cached after the startup fetch. -/
def iceSample : List IceServer := [⟨"stun:sample", none, none⟩]

/-- State after one user joined room r. -/
def sOne : ServerState :=
  run (initState (some iceSample)) [(0, Op.join "c1" "r" "u1" "A" false)]

/-- State after two users joined room r: the room is at capacity. -/
def sFull : ServerState :=
  run (initState (some iceSample))
    [(0, Op.join "c1" "r" "u1" "A" false), (1, Op.join "c2" "r" "u2" "B" false)]

/-- The registry room of sFull. -/
def roomFull : Room :=
  ⟨"r", "u1", [("u1", ⟨"u1", "c1", "A", "r", 0⟩), ("u2", ⟨"u2", "c2", "B", "r", 1⟩)], 0, 2⟩

/-- State after two users joined room r and the second sent an explicit
leave: one member left, but the leaver's connection is still in the
broadcast group (the leave handler never unsubscribes it). -/
def sStale : ServerState :=
  run (initState (some iceSample))
    [(0, Op.join "c1" "r" "u1" "A" false), (1, Op.join "c2" "r" "u2" "B" false),
     (2, Op.leave "c2")]

/-! ### Claim theorems -/

/-- Claim C1: over every operation sequence from the initial state,
every registry room satisfies |users| ≤ maxUsers with maxUsers = 2; and
a join by a fresh user id to a full room leaves the registry (hence the
room's membership) exactly unchanged. -/
theorem join_capacity_invariant :
    (∀ (ice : Option (List IceServer)) (ops : List (Nat × Op)),
      ∀ p ∈ (run (initState ice) ops).rooms,
        p.2.users.length ≤ p.2.maxUsers ∧ p.2.maxUsers = 2) ∧
    (∀ (s : ServerState) (now : Nat) (conn roomId userId username : String)
      (config : Bool) (r : Room),
      mapGet s.rooms roomId = some r → r.isFull = true → r.hasUser userId = false →
      (step s now (Op.join conn roomId userId username config)).1.rooms = s.rooms) := by
  constructor
  · intro ice ops p hp
    have hInv := Inv_run (initState ice) ops (Inv_initState ice)
    have hok := hInv.2.2.2.1 p hp
    obtain ⟨_, h2, _, h4⟩ := hok
    exact ⟨by rw [h2]; exact h4, h2⟩
  · intro s now conn roomId userId username config r hr hfull hfresh
    simp only [step, handleJoin, joinResolve, hr, hfresh, Bool.false_eq_true, if_false,
      hfull, if_true]

/-- Claim C1 witness: the bound holds for the concrete room reached by
a concrete run, and a third fresh join to the concrete full room mutates
nothing. -/
theorem join_capacity_invariant_witness :
    (("r", roomFull).2.users.length ≤ ("r", roomFull).2.maxUsers ∧
      ("r", roomFull).2.maxUsers = 2) ∧
    (step sFull 2 (Op.join "c3" "r" "u3" "C" false)).1.rooms = sFull.rooms :=
  ⟨join_capacity_invariant.1 (some iceSample)
      [(0, Op.join "c1" "r" "u1" "A" false), (1, Op.join "c2" "r" "u2" "B" false),
       (2, Op.join "c3" "r" "u3" "C" false)] ("r", roomFull) (by decide),
   join_capacity_invariant.2 sFull 2 "c3" "r" "u3" "C" false roomFull
     (by decide) (by decide) (by decide)⟩

/-- Claim C10: Room.addUser performs no capacity check.  On a room of
size 2 it inserts a fresh user id and the size becomes 3; on a room
already containing the user id it replaces the entry in place, the size
is unchanged, and the stored entry is the new user. -/
theorem addUser_unchecked :
    (∀ (r : Room) (u : User), r.users.length = 2 → r.hasUser u.id = false →
      (r.addUser u).users.length = 3) ∧
    (∀ (r : Room) (u : User), r.hasUser u.id = true →
      (r.addUser u).users.length = r.users.length ∧
      (r.addUser u).getUser u.id = some u) := by
  constructor
  · intro r u hlen hfresh
    show (mapSet r.users u.id u).length = 3
    rw [length_mapSet]
    simp only [Room.hasUser] at hfresh
    rw [hfresh]
    simp [hlen]
  · intro r u hhas
    constructor
    · show (mapSet r.users u.id u).length = r.users.length
      rw [length_mapSet]
      simp only [Room.hasUser] at hhas
      rw [hhas]
      simp
    · exact mapGet_mapSet_self r.users u.id u

/-- Claim C10 witness: on the concrete full room, adding a fresh user
makes three entries; adding an existing id keeps two and rebinds. -/
theorem addUser_unchecked_witness :
    (roomFull.addUser ⟨"u3", "c3", "C", "r", 2⟩).users.length = 3 ∧
    ((roomFull.addUser ⟨"u1", "c9", "A", "r", 2⟩).users.length = roomFull.users.length ∧
     (roomFull.addUser ⟨"u1", "c9", "A", "r", 2⟩).getUser "u1"
       = some ⟨"u1", "c9", "A", "r", 2⟩) :=
  ⟨addUser_unchecked.1 roomFull ⟨"u3", "c3", "C", "r", 2⟩ (by decide) (by decide),
   addUser_unchecked.2 roomFull ⟨"u1", "c9", "A", "r", 2⟩ (by decide)⟩

/-- Claim C4: a join with a user id already present in the room (a
rejoin from a new connection) evicts the stale entry and inserts the new
one: membership size is unchanged, the membership map still has no
duplicate user id, and the stored entry binds the new connection id. -/
theorem rejoin_replaces_stale_entry (s : ServerState) (now : Nat)
    (conn roomId userId username : String) (config : Bool) (r : Room)
    (hInv : Inv s) (hr : mapGet s.rooms roomId = some r)
    (hu : r.hasUser userId = true) :
    mapGet (step s now (Op.join conn roomId userId username config)).1.rooms roomId
        = some ((r.removeUser userId).addUser ⟨userId, conn, username, r.id, now⟩) ∧
      ((r.removeUser userId).addUser
        ⟨userId, conn, username, r.id, now⟩).users.length = r.users.length ∧
      (((r.removeUser userId).addUser
        ⟨userId, conn, username, r.id, now⟩).users.map Prod.fst).Nodup ∧
      ((r.removeUser userId).addUser ⟨userId, conn, username, r.id, now⟩).getUser userId
        = some ⟨userId, conn, username, r.id, now⟩ := by
  have hok := RoomOk_of_mapGet s roomId r hInv hr
  obtain ⟨hid, hmax, hnd, hlen⟩ := hok
  have hmax2 : r.maxUsers = 2 := hmax
  have hlen2 : r.users.length ≤ 2 := hlen
  have hnd2 : (r.users.map Prod.fst).Nodup := hnd
  have hdel : (mapDelete r.users userId).length + 1 = r.users.length :=
    length_mapDelete_of_has r.users userId hnd2 hu
  have hnotfull : (r.removeUser userId).isFull = false := by
    simp only [Room.isFull, Room.removeUser, mapSize, decide_eq_false_iff_not, not_le]
    show (mapDelete r.users userId).length < r.maxUsers
    omega
  simp only [step, handleJoin, joinResolve, hr, hu, if_true, hnotfull,
    Bool.false_eq_true, if_false]
  refine ⟨mapGet_mapSet_self _ _ _, ?_, ?_, ?_⟩
  · show (mapSet (mapDelete r.users userId) userId _).length = r.users.length
    rw [length_mapSet, mapHas_mapDelete_self]
    simp only [Bool.false_eq_true, if_false]
    omega
  · exact keys_nodup_mapSet _ _ _ ((keys_mapDelete_sublist r.users userId).nodup hnd2)
  · exact mapGet_mapSet_self _ _ _

/-- Claim C4 witness: a rejoin of u1 from connection c9 into the
concrete full room keeps two members, no duplicate ids, and rebinds u1
to c9. -/
theorem rejoin_replaces_stale_entry_witness :
    mapGet (step sFull 2 (Op.join "c9" "r" "u1" "A" true)).1.rooms "r"
        = some ((roomFull.removeUser "u1").addUser ⟨"u1", "c9", "A", "r", 2⟩) ∧
      ((roomFull.removeUser "u1").addUser
        ⟨"u1", "c9", "A", "r", 2⟩).users.length = roomFull.users.length ∧
      (((roomFull.removeUser "u1").addUser
        ⟨"u1", "c9", "A", "r", 2⟩).users.map Prod.fst).Nodup ∧
      ((roomFull.removeUser "u1").addUser ⟨"u1", "c9", "A", "r", 2⟩).getUser "u1"
        = some ⟨"u1", "c9", "A", "r", 2⟩ :=
  rejoin_replaces_stale_entry sFull 2 "c9" "r" "u1" "A" true roomFull
    (by decide) (by decide) (by decide)

/-- Claim C5: an offer, answer, candidate or leave arriving on a
connection that never completed a successful join (its closure user
binding is unset) makes the handler throw before any emission: the
handler result is an error, the state is unchanged and nothing is
forwarded to any connection. -/
theorem unbound_session_rejected (s : ServerState) (now : Nat) (conn payload : String)
    (h : (sessionOf s conn).user = none) :
    handleOffer s conn payload = Except.error "TypeError" ∧
    handleAnswer s conn payload = Except.error "TypeError" ∧
    handleCandidate s conn payload = Except.error "TypeError" ∧
    handleLeave s conn = Except.error "TypeError" ∧
    step s now (Op.offer conn payload) = (s, []) ∧
    step s now (Op.answer conn payload) = (s, []) ∧
    step s now (Op.candidate conn payload) = (s, []) ∧
    step s now (Op.leave conn) = (s, []) := by
  rcases hs : sessionOf s conn with ⟨sr, su⟩
  rw [hs] at h
  simp only at h
  subst h
  cases sr <;>
    refine ⟨?_, ?_, ?_, ?_, ?_, ?_, ?_, ?_⟩ <;>
    simp [step, handleOffer, handleAnswer, handleCandidate, handleLeave, hs]

theorem joinResolve_room0_creator (s : ServerState) (now : Nat)
    (roomId userId username : String) (r : Room)
    (hr : mapGet s.rooms roomId = some r) :
    (joinResolve s now roomId userId username).1.creator = r.creator := by
  simp only [joinResolve, hr]
  by_cases hu : r.hasUser userId <;> simp [hu, Room.removeUser]

theorem joinResolve_rooms_creator (s : ServerState) (now : Nat)
    (roomId userId username : String) (i : String) (r r2 : Room)
    (hr : mapGet s.rooms i = some r)
    (h2 : mapGet (joinResolve s now roomId userId username).2.1 i = some r2) :
    r2.creator = r.creator := by
  by_cases hi : i = roomId
  · subst hi
    simp only [joinResolve, hr] at h2
    by_cases hu : r.hasUser userId
    · simp only [hu, if_true] at h2
      rw [mapGet_mapSet_self] at h2
      injection h2 with h2
      rw [← h2]
      rfl
    · simp only [hu, Bool.false_eq_true, if_false] at h2
      rw [hr] at h2
      injection h2 with h2
      rw [h2]
  · simp only [joinResolve] at h2
    cases hg : mapGet s.rooms roomId with
    | some rr =>
      rw [hg] at h2
      by_cases hu : rr.hasUser userId
      · simp only [hu, if_true] at h2
        rw [mapGet_mapSet_ne _ _ _ _ hi] at h2
        rw [hr] at h2
        injection h2 with h2
        rw [h2]
      · simp only [hu, Bool.false_eq_true, if_false] at h2
        rw [hr] at h2
        injection h2 with h2
        rw [h2]
    | none =>
      rw [hg] at h2
      simp only at h2
      rw [show (Room.new roomId userId now).id = roomId from rfl] at h2
      rw [mapGet_mapSet_ne _ _ _ _ hi] at h2
      rw [hr] at h2
      injection h2 with h2
      rw [h2]

theorem creator_immutable_step (s : ServerState) (now : Nat) (op : Op) (i : String)
    (r r2 : Room) (hr : mapGet s.rooms i = some r)
    (h2 : mapGet (step s now op).1.rooms i = some r2) : r2.creator = r.creator := by
  cases op with
  | join conn roomId userId username config =>
    simp only [step, handleJoin] at h2
    by_cases hf : (joinResolve s now roomId userId username).1.isFull
    · simp only [hf, if_true] at h2
      exact joinResolve_rooms_creator s now roomId userId username i r r2 hr h2
    · simp only [hf, Bool.false_eq_true, if_false] at h2
      rw [socketJoin_rooms] at h2
      by_cases hi : i = roomId
      · subst hi
        rw [mapGet_mapSet_self] at h2
        injection h2 with h2
        rw [← h2]
        exact joinResolve_room0_creator s now i userId username r hr
      · rw [mapGet_mapSet_ne _ _ _ _ hi] at h2
        exact joinResolve_rooms_creator s now roomId userId username i r r2 hr h2
  | offer conn sdp =>
    rw [step_offer_state] at h2
    rw [hr] at h2
    injection h2 with h2
    rw [h2]
  | answer conn sdp =>
    rw [step_answer_state] at h2
    rw [hr] at h2
    injection h2 with h2
    rw [h2]
  | candidate conn payload =>
    rw [step_candidate_state] at h2
    rw [hr] at h2
    injection h2 with h2
    rw [h2]
  | leave conn =>
    simp only [step, handleLeave] at h2
    cases hsr : (sessionOf s conn).room with
    | none =>
      cases hsu : (sessionOf s conn).user <;> simp only [hsr, hsu] at h2 <;>
        (rw [hr] at h2; injection h2 with h2; rw [h2])
    | some rid =>
      cases hsu : (sessionOf s conn).user with
      | none =>
        simp only [hsr, hsu] at h2
        rw [hr] at h2
        injection h2 with h2
        rw [h2]
      | some u =>
        simp only [hsr, hsu] at h2
        cases hg : mapGet s.rooms rid with
        | none =>
          simp only [hg] at h2
          rw [hr] at h2
          injection h2 with h2
          rw [h2]
        | some room =>
          simp only [hg] at h2
          by_cases he : (room.removeUser u.id).isEmpty
          · simp only [he, if_true] at h2
            by_cases hi : i = rid
            · subst hi
              rw [mapGet_mapDelete_self] at h2
              exact absurd h2 (by simp)
            · rw [mapGet_mapDelete_ne _ _ _ hi, mapGet_mapSet_ne _ _ _ _ hi] at h2
              rw [hr] at h2
              injection h2 with h2
              rw [h2]
          · simp only [he, Bool.false_eq_true, if_false] at h2
            by_cases hi : i = rid
            · subst hi
              rw [mapGet_mapSet_self] at h2
              injection h2 with h2
              rw [← h2]
              rw [hr] at hg
              injection hg with hg
              rw [← hg]
              rfl
            · rw [mapGet_mapSet_ne _ _ _ _ hi] at h2
              rw [hr] at h2
              injection h2 with h2
              rw [h2]
  | disconnect conn =>
    simp only [step, handleDisconnect] at h2
    rw [hr] at h2
    injection h2 with h2
    rw [h2]

/-- Claim C7: a room's creator is assigned at construction to the
joining user id that created the room, no operation ever changes it
while the room stays in the registry, and every joined reply's isCreator
flag is true exactly when the joining user id equals the carried room's
creator id. -/
theorem creator_assigned_once :
    (∀ (s : ServerState) (now : Nat) (conn roomId userId username : String)
      (config : Bool), mapGet s.rooms roomId = none →
      (mapGet (step s now (Op.join conn roomId userId username config)).1.rooms
        roomId).map Room.creator = some userId) ∧
    (∀ (s : ServerState) (now : Nat) (op : Op) (i : String) (r r2 : Room),
      mapGet s.rooms i = some r → mapGet (step s now op).1.rooms i = some r2 →
      r2.creator = r.creator) ∧
    (∀ (s : ServerState) (now : Nat) (conn roomId userId username : String)
      (config : Bool) (d : String × User × Room × Bool × Option (List IceServer)),
      d ∈ joinedEvents (step s now (Op.join conn roomId userId username config)).2 →
      d.1 = conn ∧ (d.2.2.2.1 = true ↔ d.2.2.1.creator = userId)) := by
  refine ⟨?_, creator_immutable_step, ?_⟩
  · intro s now conn roomId userId username config hnone
    simp only [step, handleJoin, joinResolve, hnone]
    have h0 : (Room.new roomId userId now).isFull = false := rfl
    simp only [h0, Bool.false_eq_true, if_false]
    rw [socketJoin_rooms]
    rw [mapGet_mapSet_self]
    rfl
  · intro s now conn roomId userId username config d hd
    rw [step_join_joinedEvents] at hd
    by_cases hf : (joinResolve s now roomId userId username).1.isFull
    · simp [hf] at hd
    · simp only [hf, Bool.false_eq_true, if_false, List.mem_singleton] at hd
      subst hd
      refine ⟨rfl, ?_⟩
      show (Room.isCreator _ userId = true) ↔ _
      simp only [Room.isCreator, beq_iff_eq]

/-- Claim C7 witness: a concrete fresh join installs its user id as
creator, a concrete rejoin step keeps the creator of the concrete room,
and the joined reply of the rejoin carries a true isCreator flag exactly
because u1 is the creator. -/
theorem creator_assigned_once_witness :
    ((mapGet (step sFull 2 (Op.join "c9" "r2" "u9" "Z" false)).1.rooms "r2").map
        Room.creator = some "u9") ∧
    ((mapGet (step sFull 2 (Op.join "c9" "r" "u1" "A" false)).1.rooms "r").map
        Room.creator = some "u1") ∧
    (("c9", User.mk "u1" "c9" "A" "r" 2,
        Room.mk "r" "u1"
          [("u2", ⟨"u2", "c2", "B", "r", 1⟩), ("u1", ⟨"u1", "c9", "A", "r", 2⟩)] 0 2,
        true, (none : Option (List IceServer))).1 = "c9" ∧
      (("c9", User.mk "u1" "c9" "A" "r" 2,
        Room.mk "r" "u1"
          [("u2", ⟨"u2", "c2", "B", "r", 1⟩), ("u1", ⟨"u1", "c9", "A", "r", 2⟩)] 0 2,
        true, (none : Option (List IceServer))).2.2.2.1 = true ↔
       ("c9", User.mk "u1" "c9" "A" "r" 2,
        Room.mk "r" "u1"
          [("u2", ⟨"u2", "c2", "B", "r", 1⟩), ("u1", ⟨"u1", "c9", "A", "r", 2⟩)] 0 2,
        true, (none : Option (List IceServer))).2.2.1.creator = "u1")) := by
  refine ⟨creator_assigned_once.1 sFull 2 "c9" "r2" "u9" "Z" false (by decide), ?_, ?_⟩
  · cases hx : mapGet (step sFull 2 (Op.join "c9" "r" "u1" "A" false)).1.rooms "r" with
    | none => exact absurd hx (by decide)
    | some r2 =>
      have hcr := creator_assigned_once.2.1 sFull 2 (Op.join "c9" "r" "u1" "A" false) "r"
        roomFull r2 (by decide) hx
      show some r2.creator = some "u1"
      rw [hcr]
      rfl
  · exact creator_assigned_once.2.2 sFull 2 "c9" "r" "u1" "A" false _ (by decide)

/-- Claim C5 witness: on the initial state, connection c has no
session, and every pre-join protocol message is rejected without effect. -/
theorem unbound_session_rejected_witness :
    handleOffer (initState none) "c" "x" = Except.error "TypeError" ∧
    handleAnswer (initState none) "c" "x" = Except.error "TypeError" ∧
    handleCandidate (initState none) "c" "x" = Except.error "TypeError" ∧
    handleLeave (initState none) "c" = Except.error "TypeError" ∧
    step (initState none) 0 (Op.offer "c" "x") = (initState none, []) ∧
    step (initState none) 0 (Op.answer "c" "x") = (initState none, []) ∧
    step (initState none) 0 (Op.candidate "c" "x") = (initState none, []) ∧
    step (initState none) 0 (Op.leave "c") = (initState none, []) :=
  unbound_session_rejected (initState none) 0 "c" "x" (by decide)

theorem not_mem_others (g : List String) (conn : String) : conn ∉ others g conn := by
  intro h
  have hm := List.mem_filter.mp h
  simp at hm

theorem nonLogEvents_map_of_not_log (l : List String) (m : Msg) (h : m.isLog = false) :
    nonLogEvents (l.map (fun c => (c, m))) = l.map (fun c => (c, m)) := by
  induction l with
  | nil => rfl
  | cons c t ih =>
    simp only [List.map_cons, nonLogEvents, List.filter_cons, h, Bool.not_false, if_true]
    simp only [nonLogEvents] at ih
    rw [ih]

/-- The sender identity a relayed message is tagged with: offer and
answer carry the sending User as an argument, every other message
carries no sender identity. -/
def senderTag : Msg → Option String
  | Msg.offer u _ => some u.id
  | Msg.answer u _ => some u.id
  | _ => none

/-- The earlier server draft emits the capacity rejection with
socket.to(sockedId).emit, a broadcast to the private room named by the
joining socket id.  That room contains only the joining socket itself,
and socket.to excludes the sender, so the recipients of the rejection. -/
def fullEmitRecipients (conn : String) : List String :=
  others [conn] conn

/-- Claim C2: at a concrete full room, a fresh join is rejected without
touching the registry, but the current join handler emits nothing at all
to the joining connection (every delivery is a diagnostic log to other
connections and no full message exists); and even the earlier draft's
full emission reaches no connection, because socket.to excludes the
sending socket from its own private room. -/
theorem full_rejection_not_observable_by_joiner :
    (step sFull 2 (Op.join "c3" "r" "u3" "C" false)).1.rooms = sFull.rooms ∧
    ((step sFull 2 (Op.join "c3" "r" "u3" "C" false)).2.all
      (fun d => decide (d.1 ≠ "c3") && d.2.isLog)) = true ∧
    fullEmitRecipients "c3" = [] := by decide

/-- Claim C8: an explicit leave by the last occupant removes the room
from the registry, but an abrupt transport disconnect of the last
occupant leaves the room in the registry with the user still a member
(the disconnect handler performs no cleanup). -/
theorem disconnect_leaks_room :
    mapGet (step sOne 1 (Op.leave "c1")).1.rooms "r" = none ∧
    mapGet (step sOne 1 (Op.disconnect "c1")).1.rooms "r"
      = some ⟨"r", "u1", [("u1", ⟨"u1", "c1", "A", "r", 0⟩)], 0, 2⟩ := by decide

/-- Claim C3 counterexample: after u2 leaves explicitly without
disconnecting, room r has only member u1, yet the capacity-reaching join
of u3 delivers ready to connection c2, which is not a connection of any
pre-existing occupant (the leave handler never removes a connection from
the broadcast group). -/
theorem ready_sent_to_departed_connection :
    ((mapGet sStale.rooms "r").map (fun q => q.users.map Prod.fst) = some ["u1"]) ∧
    ((mapGet sStale.rooms "r").map
      (fun q => q.users.any (fun e => e.2.socketId == "c2")) = some false) ∧
    ("c2" ∈ readyTargets (step sStale 3 (Op.join "c3" "r" "u3" "C" false)).2) := by decide

/-- Claim C3 as amended: a capacity-reaching join emits ready exactly to
the connections of the room's broadcast group other than the joining
connection (the pre-existing occupants' connections plus any
still-subscribed connections of members that left explicitly); a
rejected or non-filling join emits no ready; the joining connection
never receives ready; and on invariant states each target receives it
exactly once. -/
theorem ready_only_to_other_group_connections (s : ServerState) (now : Nat)
    (conn roomId userId username : String) (config : Bool) :
    (readyTargets (step s now (Op.join conn roomId userId username config)).2 =
      if (joinResolve s now roomId userId username).1.isFull then []
      else if ((joinResolve s now roomId userId username).1.addUser
          ⟨userId, conn, username, (joinResolve s now roomId userId username).1.id,
            now⟩).isFull then
        others (insertConn (groupMembers s
          ((joinResolve s now roomId userId username).1.addUser
            ⟨userId, conn, username, (joinResolve s now roomId userId username).1.id,
              now⟩).id) conn) conn
      else []) ∧
    conn ∉ readyTargets (step s now (Op.join conn roomId userId username config)).2 ∧
    (Inv s →
      (readyTargets (step s now (Op.join conn roomId userId username config)).2).Nodup) := by
  refine ⟨step_join_readyTargets s now conn roomId userId username config, ?_, ?_⟩
  · rw [step_join_readyTargets]
    by_cases h1 : (joinResolve s now roomId userId username).1.isFull
    · simp [h1]
    · simp only [h1, Bool.false_eq_true, if_false]
      by_cases h2 : ((joinResolve s now roomId userId username).1.addUser
          ⟨userId, conn, username, (joinResolve s now roomId userId username).1.id,
            now⟩).isFull
      · simp only [h2, if_true]
        exact not_mem_others _ conn
      · simp [h2]
  · intro hInv
    rw [step_join_readyTargets]
    by_cases h1 : (joinResolve s now roomId userId username).1.isFull
    · simp [h1]
    · simp only [h1, Bool.false_eq_true, if_false]
      by_cases h2 : ((joinResolve s now roomId userId username).1.addUser
          ⟨userId, conn, username, (joinResolve s now roomId userId username).1.id,
            now⟩).isFull
      · simp only [h2, if_true]
        exact (nodup_if_insert _ conn (groupMembers_nodup s _ hInv)).filter _
      · simp [h2]

/-- Claim C3 witness: in the concrete one-occupant state, the second
join never delivers ready to the joiner and delivers it at most once per
target. -/
theorem ready_only_to_other_group_connections_witness :
    "c2" ∉ readyTargets (step sOne 1 (Op.join "c2" "r" "u2" "B" false)).2 ∧
    (readyTargets (step sOne 1 (Op.join "c2" "r" "u2" "B" false)).2).Nodup :=
  ⟨(ready_only_to_other_group_connections sOne 1 "c2" "r" "u2" "B" false).2.1,
   (ready_only_to_other_group_connections sOne 1 "c2" "r" "u2" "B" false).2.2 (by decide)⟩

/-- Claim C6 counterexample: in the concrete full room, a candidate from
u1 is relayed to the other connection carrying only the payload: the
delivered message bears no sender identity, unlike an offer. -/
theorem candidate_relayed_without_sender_tag :
    nonLogEvents (step sFull 2 (Op.candidate "c1" "x")).2 = [("c2", Msg.candidate "x")] ∧
    senderTag (Msg.candidate "x") = none ∧
    senderTag (Msg.offer ⟨"u1", "c1", "A", "r", 0⟩ "x") = some "u1" := by decide

/-- Claim C6 as amended: offer and answer from a bound session are
relayed unmodified and tagged with the sending User to every connection
of the bound room's broadcast group except the sender; candidate is
relayed unmodified but without the sender tag; nothing is ever echoed to
the sender's own connection. -/
theorem relay_to_other_connections (s : ServerState) (now : Nat)
    (conn rid sdp : String) (u : User)
    (hs : sessionOf s conn = ⟨some rid, some u⟩) :
    nonLogEvents (step s now (Op.offer conn sdp)).2
      = (others (groupMembers s rid) conn).map (fun c => (c, Msg.offer u sdp)) ∧
    nonLogEvents (step s now (Op.answer conn sdp)).2
      = (others (groupMembers s rid) conn).map (fun c => (c, Msg.answer u sdp)) ∧
    nonLogEvents (step s now (Op.candidate conn sdp)).2
      = (others (groupMembers s rid) conn).map (fun c => (c, Msg.candidate sdp)) ∧
    conn ∉ others (groupMembers s rid) conn := by
  have hsock : ∀ m : Msg, m.isLog = false →
      nonLogEvents (emitSocketTo s conn rid m)
        = (others (groupMembers s rid) conn).map (fun c => (c, m)) := by
    intro m hm
    exact nonLogEvents_map_of_not_log _ _ hm
  refine ⟨?_, ?_, ?_, not_mem_others _ conn⟩
  · simp only [step, handleOffer, hs]
    rw [nonLogEvents_append, nonLogEvents_eq_nil_of_log _ (emitIoTo_log s rid _),
      hsock (Msg.offer u sdp) rfl, List.nil_append]
  · simp only [step, handleAnswer, hs]
    rw [nonLogEvents_append, nonLogEvents_eq_nil_of_log _ (emitIoTo_log s rid _),
      hsock (Msg.answer u sdp) rfl, List.nil_append]
  · simp only [step, handleCandidate, hs]
    rw [nonLogEvents_append, nonLogEvents_eq_nil_of_log _ (emitIoTo_log s rid _),
      hsock (Msg.candidate sdp) rfl, List.nil_append]

/-- Claim C6 witness: a concrete offer from u1 on connection c1 in the
full room is relayed tagged to the other connections only. -/
theorem relay_to_other_connections_witness :
    nonLogEvents (step sFull 2 (Op.offer "c1" "sdp1")).2
      = (others (groupMembers sFull "r") "c1").map
          (fun c => (c, Msg.offer ⟨"u1", "c1", "A", "r", 0⟩ "sdp1")) ∧
    "c1" ∉ others (groupMembers sFull "r") "c1" :=
  ⟨(relay_to_other_connections sFull 2 "c1" "r" "sdp1" ⟨"u1", "c1", "A", "r", 0⟩
      (by decide)).1,
   (relay_to_other_connections sFull 2 "c1" "r" "sdp1" ⟨"u1", "c1", "A", "r", 0⟩
      (by decide)).2.2.2⟩

/-- Claim C9 counterexample: the second join fills the room and the
server holds a cached configuration, yet because the joiner did not set
wantsConfig the joined reply carries no configuration. -/
theorem capacity_join_without_wantsConfig_gets_none :
    ((mapGet (step sOne 1 (Op.join "c2" "r" "u2" "B" false)).1.rooms "r").map
        Room.isFull = some true) ∧
    sOne.iceServers = some iceSample ∧
    joinedEvents (step sOne 1 (Op.join "c2" "r" "u2" "B" false)).2
      = [("c2", ⟨"u2", "c2", "B", "r", 1⟩, roomFull, false, none)] := by decide

/-- Claim C9 as amended: at most one joined reply is emitted per join,
it goes to the joining connection only, and it carries the cached
configuration exactly when the joiner set wantsConfig, independently of
whether the room just reached capacity. -/
theorem joined_only_to_joiner_config_iff_requested (s : ServerState) (now : Nat)
    (conn roomId userId username : String) (config : Bool) :
    (joinedEvents (step s now (Op.join conn roomId userId username config)).2).length ≤ 1 ∧
    (∀ d ∈ joinedEvents (step s now (Op.join conn roomId userId username config)).2,
      d.1 = conn ∧ d.2.2.2.2 = (if config then s.iceServers else none)) := by
  rw [step_join_joinedEvents]
  by_cases hf : (joinResolve s now roomId userId username).1.isFull
  · simp [hf]
  · simp only [hf, Bool.false_eq_true, if_false]
    refine ⟨by simp, ?_⟩
    intro d hd
    simp only [List.mem_singleton] at hd
    subst hd
    exact ⟨rfl, rfl⟩

/-- Claim C9 witness: the concrete joined reply of a wantsConfig join
goes to the joining connection and carries the cached configuration. -/
theorem joined_only_to_joiner_config_iff_requested_witness :
    ("c2", User.mk "u2" "c2" "B" "r" 1, roomFull, false,
        some iceSample).1 = "c2" ∧
    ("c2", User.mk "u2" "c2" "B" "r" 1, roomFull, false,
        some iceSample).2.2.2.2 = (if true then sOne.iceServers else none) :=
  (joined_only_to_joiner_config_iff_requested sOne 1 "c2" "r" "u2" "B" true).2
    _ (by decide)

end P2P
